import Mathlib

/-!
Verification of the news-ai-agent fetch → extract → classify pipeline.

Shallow embedding of the core Python modules:
  `agents/news_fetcher.py`, `agents/content_scraper.py`,
  `agents/content_analyzer.py`, `agents/agent_orchestrator.py`,
  `utils/database.py`.

Python strings are modelled by `String`; `str.strip`, `str.lower` and
slicing are modelled by executable list-of-characters functions below so
that concrete runs reduce in the kernel.  Exceptions of fallible calls are
modelled with `Except`; external collaborators (the LLM backend, NLTK
sentence tokenization, the TextBlob polarity analyzer) are modelled as
oracle functions supplied as parameters.
-/

/-- Whitespace characters recognised by Python's `str.strip` / regex
`\s` (ASCII fragment, which is what the repository's data exercises). -/
def isPySpace (c : Char) : Bool :=
  c = ' ' || c = '\t' || c = '\n' || c = '\r' || c = '\x0b' || c = '\x0c'

/-- Model of Python `str.strip()`: drop leading and trailing whitespace. -/
def pyStrip (s : String) : String :=
  ⟨((s.data.dropWhile isPySpace).reverse.dropWhile isPySpace).reverse⟩

/-- Model of Python `str.lower()` (character-wise lowering). -/
def pyLower (s : String) : String :=
  ⟨s.data.map Char.toLower⟩

/-- Model of Python `len(s)` (number of code points). -/
def pyLen (s : String) : Nat :=
  s.data.length

/-- Model of Python slicing `s[:n]`. -/
def pyTake (n : Nat) (s : String) : String :=
  ⟨s.data.take n⟩

/-- Helper for Python's `in` on strings: does `l` start with `p`? -/
def startsWithList : List Char → List Char → Bool
  | _, [] => true
  | [], _ :: _ => false
  | c :: l, p :: ps => c == p && startsWithList l ps

/-- Helper for Python's `in` on strings: does `l` contain `p` as a
contiguous substring? -/
def hasSubstr : List Char → List Char → Bool
  | [], pat => pat.isEmpty
  | l@(_ :: rest), pat => startsWithList l pat || hasSubstr rest pat

/-- Model of Python `pat in s` (substring containment). -/
def strContains (s pat : String) : Bool :=
  hasSubstr s.data pat.data

/-!  ## SourceFetcher (`agents/news_fetcher.py`)  -/

/-- Raw article stub as assembled by `NewsFetcher._fetch_from_*`. -/
structure RawArticle where
  title : String := ""
  url : String := ""
  source : String := ""
  source_type : String := ""
  published_date : String := ""
  description : String := ""
  fetch_date : String := ""
deriving DecidableEq, Repr

/-- Normalised title used by `_deduplicate_articles`
(`article.get('title', '').strip().lower()`). -/
def dedupTitle (a : RawArticle) : String :=
  pyLower (pyStrip a.title)

/-- Normalised url used by `_deduplicate_articles`
(`article.get('url', '').strip().lower()`). -/
def dedupUrl (a : RawArticle) : String :=
  pyLower (pyStrip a.url)

/-- The guard `if not title or not url: continue` of
`_deduplicate_articles`. -/
def dedupValid (a : RawArticle) : Bool :=
  !(dedupTitle a == "") && !(dedupUrl a == "")

/-- The deduplication key: the code hashes `f"{title}|{url}"` with MD5;
MD5 is modelled as injective, i.e. the key is the joined string itself. -/
def dedupKey (a : RawArticle) : String :=
  dedupTitle a ++ "|" ++ dedupUrl a

/-- Loop body of `NewsFetcher._deduplicate_articles`: `seen` is the set of
keys already emitted. -/
def dedupGo (seen : List String) : List RawArticle → List RawArticle
  | [] => []
  | a :: rest =>
    if !(dedupValid a) then dedupGo seen rest
    else if seen.contains (dedupKey a) then dedupGo seen rest
    else a :: dedupGo (dedupKey a :: seen) rest

/-- `NewsFetcher._deduplicate_articles`. -/
def deduplicate_articles (articles : List RawArticle) : List RawArticle :=
  dedupGo [] articles

/-- Spec-side restatement of the amended dedup contract, written from
its words: an article is kept iff it is valid and no earlier valid
article of the list carries the same joined key; `prev` is the
already-scanned prefix.  Compared against `deduplicate_articles` in the
C3 theorem. -/
def dedupSpecAux (prev : List RawArticle) : List RawArticle → List RawArticle
  | [] => []
  | a :: rest =>
    if dedupValid a &&
        !(prev.any (fun b => dedupValid b && dedupKey b == dedupKey a)) then
      a :: dedupSpecAux (prev ++ [a]) rest
    else dedupSpecAux (prev ++ [a]) rest

/-- Source specification entry from `sources.yaml`
(`name`, `type`, `enabled`). -/
structure SourceSpec where
  name : String
  stype : String := ""
  enabled : Bool := true
deriving DecidableEq, Repr

/-- The configuration read by `NewsFetcher.__init__`:
`max_articles_per_brand`, `default_search_engine` and the source list. -/
structure FetchConfig where
  maxArticles : Nat
  defaultSearchEngine : String
  sources : List SourceSpec
deriving Repr

/-- Brand profile fragment used by the fetcher (`name`, `keywords`). -/
structure FetchBrand where
  name : String
  keywords : List String
deriving Repr

/-- One issued source query, instrumented with the accumulated article
count at the moment the query was issued (`pre`). -/
structure SourceQuery where
  src : String
  kw : String
  pre : Nat
deriving DecidableEq, Repr

/-- The `for source in self.sources_config['news_sources']` loop of
`fetch_news_for_brand`: skip the default engine and disabled sources,
extend the accumulator, break once `max_articles` is reached.  The oracle
maps (source name, keyword) to the fetched articles; a query whose Python
call raises is modelled by the oracle returning `[]` (the `except` arm
treats it as zero results). -/
def fetchOtherSources (cfg : FetchConfig)
    (oracle : String → String → List RawArticle) (kw : String) :
    List SourceSpec → List RawArticle → List SourceQuery →
    List RawArticle × List SourceQuery
  | [], acc, log => (acc, log)
  | s :: rest, acc, log =>
    if s.name == cfg.defaultSearchEngine || !s.enabled then
      fetchOtherSources cfg oracle kw rest acc log
    else
      let acc2 := acc ++ oracle s.name kw
      let log2 := log ++ [⟨s.name, kw, acc.length⟩]
      if cfg.maxArticles ≤ acc2.length then (acc2, log2)
      else fetchOtherSources cfg oracle kw rest acc2 log2

/-- Body of the `for keyword in brand['keywords']` loop of
`fetch_news_for_brand`: the default engine is looked up and queried first
(unconditionally), then the remaining sources are tried only when the
accumulated count is still below `max_articles`. -/
def fetchKeyword (cfg : FetchConfig)
    (oracle : String → String → List RawArticle) (kw : String)
    (acc : List RawArticle) (log : List SourceQuery) :
    List RawArticle × List SourceQuery :=
  let defaultSource :=
    cfg.sources.find? (fun s => s.name == cfg.defaultSearchEngine && s.enabled)
  let st1 :=
    match defaultSource with
    | some ds => (acc ++ oracle ds.name kw, log ++ [⟨ds.name, kw, acc.length⟩])
    | none => (acc, log)
  if st1.1.length < cfg.maxArticles then
    fetchOtherSources cfg oracle kw cfg.sources st1.1 st1.2
  else st1

/-- `NewsFetcher.fetch_news_for_brand`, instrumented with the list of
issued source queries.  Returns the deduplicated list truncated to
`max_articles` together with the query log. -/
def fetch_news_for_brand (cfg : FetchConfig)
    (oracle : String → String → List RawArticle) (brand : FetchBrand) :
    List RawArticle × List SourceQuery :=
  let st := brand.keywords.foldl
    (fun st kw => fetchKeyword cfg oracle kw st.1 st.2) ([], [])
  ((deduplicate_articles st.1).take cfg.maxArticles, st.2)

/-- Spec-side view (amended C2, priority order) of the single
default-engine query a keyword pass issues first: one entry when an
enabled source named as the default engine exists, none otherwise. -/
def defaultQuerySpec (cfg : FetchConfig) (kw : String)
    (acc : List RawArticle) : List SourceQuery :=
  match cfg.sources.find?
      (fun s => s.name == cfg.defaultSearchEngine && s.enabled) with
  | some ds => [⟨ds.name, kw, acc.length⟩]
  | none => []

/-- Spec-side view of the article accumulator right after the default
query of a keyword pass. -/
def accAfterDefault (cfg : FetchConfig)
    (oracle : String → String → List RawArticle) (kw : String)
    (acc : List RawArticle) : List RawArticle :=
  match cfg.sources.find?
      (fun s => s.name == cfg.defaultSearchEngine && s.enabled) with
  | some ds => acc ++ oracle ds.name kw
  | none => acc

/-- Spec-side view of the non-default queries of a keyword pass: the
alternative-source loop runs only when the accumulated count is still
below the cap after the default query. -/
def otherQueriesSpec (cfg : FetchConfig)
    (oracle : String → String → List RawArticle) (kw : String)
    (acc : List RawArticle) : List SourceQuery :=
  if (accAfterDefault cfg oracle kw acc).length < cfg.maxArticles then
    (fetchOtherSources cfg oracle kw cfg.sources
      (accAfterDefault cfg oracle kw acc) []).2
  else []

/-- Articles accumulated after one full keyword pass. -/
def fetchKeywordArticles (cfg : FetchConfig)
    (oracle : String → String → List RawArticle) (kw : String)
    (acc : List RawArticle) : List RawArticle :=
  if (accAfterDefault cfg oracle kw acc).length < cfg.maxArticles then
    (fetchOtherSources cfg oracle kw cfg.sources
      (accAfterDefault cfg oracle kw acc) []).1
  else accAfterDefault cfg oracle kw acc

/-- Spec-side layout of the whole query log (amended C2): keyword by
keyword, the default-engine query first, then the non-default queries of
that keyword.  Compared against the instrumented log of
`fetch_news_for_brand` in the C2 theorem. -/
def fetchLogSpec (cfg : FetchConfig)
    (oracle : String → String → List RawArticle) :
    List String → List RawArticle → List SourceQuery
  | [], _ => []
  | kw :: kws, acc =>
    defaultQuerySpec cfg kw acc ++ otherQueriesSpec cfg oracle kw acc ++
      fetchLogSpec cfg oracle kws (fetchKeywordArticles cfg oracle kw acc)

/-- Spec-side article accumulation over all keywords (the first
component tracked alongside `fetchLogSpec`). -/
def fetchArticlesSpec (cfg : FetchConfig)
    (oracle : String → String → List RawArticle) :
    List String → List RawArticle → List RawArticle
  | [], acc => acc
  | kw :: kws, acc =>
    fetchArticlesSpec cfg oracle kws (fetchKeywordArticles cfg oracle kw acc)

/-!  ## ClassificationEngine (`agents/content_analyzer.py`)  -/

/-- Article record in the extraction/classification stages.  Fields a
Python dict acquires only when assigned are modelled with `Option`
(`none` = key absent). -/
structure Article where
  title : String := ""
  url : String := ""
  source : String := ""
  brand : String := ""
  content : String := ""
  scrape_success : Bool := false
  summary : Option String := none
  topic : Option String := none
  subcategory : Option String := none
  product_line : Option String := none
  is_relevant : Option Bool := none
  sentiment : Option String := none
  polarity_score : Option Rat := none
  topics : Option (List String) := none
  analysis_timestamp : Option Nat := none
  analysis_error : Option String := none
deriving DecidableEq, Repr

/-- Brand profile entry from `brands.yaml` as consumed by
`ContentAnalyzer.analyze_article`. -/
structure BrandInfo where
  name : String
  categories : List String := []
  subcategories : List String := []
  product_lines : List String := []
deriving Repr

/-- Analyzer configuration (`analysis_config` of `agent_config.yaml`):
sentiment value strings, polarity thresholds and summary word bounds. -/
structure AnalysisConfig where
  sentimentPositive : String := "Positive"
  sentimentNeutral : String := "Neutral"
  sentimentNegative : String := "Negative"
  positiveThreshold : Rat := 0
  negativeThreshold : Rat := 0
  summaryMinWords : Nat := 100
  summaryMaxWords : Nat := 250

/-- External collaborators of the analyzer.  `llm` is the classification
backend (`self.llm.invoke`, returning the completion text); an `Except`
error models a raised exception.  `sentTokenize` models
`nltk.sent_tokenize` (used only in the summary fallback) and
`textblobPolarity` models `TextBlob(content).sentiment.polarity`. -/
structure AnalyzerEnv where
  llm : String → Except String String
  sentTokenize : String → Except String (List String)
  textblobPolarity : String → Rat

/-- Truncation applied before every classification call:
`if len(content) > 6000: content = content[:6000]`. -/
def truncateContent (content : String) : String :=
  if 6000 < pyLen content then pyTake 6000 content else content

/-- Rendering of `self.summary_prompt.format(...)`. -/
def summaryPrompt (minWords maxWords : Nat) (content : String) : String :=
  "Summarize the following news article in at least " ++ toString minWords ++
  " words but no more than " ++ toString maxWords ++ " words.\n\nArticle: " ++
  content ++ "\n\nSummary:"

/-- Rendering of `self.topic_prompt.format(...)`. -/
def topicPrompt (categories : List String) (content : String) : String :=
  "Classify the following news article into ONE of these topics:\n" ++
  String.intercalate "\n" categories ++ "\n\nArticle: " ++ content ++ "\n\nTopic:"

/-- Rendering of `self.subcategory_prompt.format(...)`. -/
def subcategoryPrompt (subcategories : List String) (content : String) : String :=
  "Classify the following news article into ONE of these subcategories:\n" ++
  String.intercalate "\n" subcategories ++ "\n\nArticle: " ++ content ++
  "\n\nSubcategory:"

/-- Rendering of `self.product_line_prompt.format(...)`. -/
def productLinePrompt (productLines : List String) (content : String) : String :=
  "Identify which (if any) of the following product lines are mentioned in the news article:\n" ++
  String.intercalate "\n" productLines ++ "\n\nArticle: " ++ content ++
  "\n\nProduct Line:"

/-- Rendering of `self.relevancy_prompt.format(...)`. -/
def relevancyPrompt (brandName : String) (content : String) : String :=
  "Determine if the following news article is relevant business news about " ++
  brandName ++ ".\n\nArticle: " ++ content ++ "\n\nIs this relevant business news about " ++
  brandName ++ "?"

/-- Rendering of `self.sentiment_prompt.format(...)`. -/
def sentimentPrompt (brandName : String) (content : String) : String :=
  "Analyze the sentiment of this news article about " ++ brandName ++
  ".\n\nArticle: " ++ content ++ "\n\nSentiment:"

/-- `ContentAnalyzer._generate_summary`.  The LLM failure arm falls back
to the first three sentences (or the first 300 characters plus an
ellipsis); an error of the tokenizer itself escapes the method, which is
the only uncaught exception inside the `try` block of `analyze_article`. -/
def generate_summary (cfg : AnalysisConfig) (env : AnalyzerEnv)
    (content : String) : Except String String :=
  let content := truncateContent content
  match env.llm (summaryPrompt cfg.summaryMinWords cfg.summaryMaxWords content) with
  | .ok r => .ok (pyStrip r)
  | .error _ =>
    match env.sentTokenize content with
    | .ok sentences =>
      if 3 < sentences.length then .ok (String.intercalate " " (sentences.take 3))
      else .ok (pyTake 300 content ++ "...")
    | .error e2 => .error e2

/-- `ContentAnalyzer._analyze_sentiment_textblob`: lexical polarity and a
categorical label from the two configured thresholds. -/
def analyze_sentiment_textblob (cfg : AnalysisConfig) (env : AnalyzerEnv)
    (content : String) : String × Rat :=
  let polarity := env.textblobPolarity content
  let sentiment :=
    if cfg.positiveThreshold ≤ polarity then cfg.sentimentPositive
    else if polarity ≤ cfg.negativeThreshold then cfg.sentimentNegative
    else cfg.sentimentNeutral
  (sentiment, polarity)

/-- `ContentAnalyzer._analyze_sentiment`: LLM categorical label combined
with the TextBlob polarity of the truncated content; on an LLM exception
the whole pair comes from TextBlob. -/
def analyze_sentiment (cfg : AnalysisConfig) (env : AnalyzerEnv)
    (content brandName : String) : String × Rat :=
  let content := truncateContent content
  match env.llm (sentimentPrompt brandName content) with
  | .ok r =>
    let sentimentText := pyStrip r
    let sentiment :=
      if pyLower sentimentText == "positive" then cfg.sentimentPositive
      else if pyLower sentimentText == "negative" then cfg.sentimentNegative
      else cfg.sentimentNeutral
    (sentiment, (analyze_sentiment_textblob cfg env content).2)
  | .error _ => analyze_sentiment_textblob cfg env content

/-- `ContentAnalyzer._classify_topic`. -/
def classify_topic (env : AnalyzerEnv) (content : String)
    (categories : List String) : String :=
  if content == "" || categories.isEmpty then "Others"
  else
    let content := truncateContent content
    match env.llm (topicPrompt categories content) with
    | .ok r =>
      let topic := pyStrip r
      if categories.contains topic then topic else "Others"
    | .error _ => "Others"

/-- `ContentAnalyzer._classify_subcategory`. -/
def classify_subcategory (env : AnalyzerEnv) (content : String)
    (subcategories : List String) : String :=
  if content == "" || subcategories.isEmpty then "Others"
  else
    let content := truncateContent content
    match env.llm (subcategoryPrompt subcategories content) with
    | .ok r =>
      let sub := pyStrip r
      if subcategories.contains sub then sub else "Others"
    | .error _ => "Others"

/-- `ContentAnalyzer._identify_product_line`: any answer outside the
vocabulary (including an explicit "none") collapses to `"None"`. -/
def identify_product_line (env : AnalyzerEnv) (content : String)
    (productLines : List String) : String :=
  if content == "" || productLines.isEmpty then "None"
  else
    let content := truncateContent content
    match env.llm (productLinePrompt productLines content) with
    | .ok r =>
      let pl := pyStrip r
      if productLines.contains pl then pl
      else if pyLower pl == "none" then "None"
      else "None"
    | .error _ => "None"

/-- `ContentAnalyzer._check_relevancy`: `"yes" in answer` on the lowered,
stripped completion. -/
def check_relevancy (env : AnalyzerEnv) (content brandName : String) : Bool :=
  if content == "" || brandName == "" then false
  else
    let content := truncateContent content
    match env.llm (relevancyPrompt brandName content) with
    | .ok r => strContains (pyLower (pyStrip r)) "yes"
    | .error _ => false

/-- `ContentAnalyzer.analyze_article`.  `now` models `time.time()`.  The
guard path (empty content or failed scrape) assigns defaults and returns.
Inside the main `try` block the per-field helpers catch their own
exceptions, so the only statement that can raise is `_generate_summary`
(through its `nltk.sent_tokenize` fallback); its error drives the
top-level `except` arm, which assigns defaults plus a TextBlob-only
sentiment pass on the full (untruncated) content and — notably — does not
write `analysis_error`. -/
def analyze_article (cfg : AnalysisConfig) (env : AnalyzerEnv)
    (brands : List BrandInfo) (now : Nat) (article : Article) : Article :=
  if article.content == "" || !article.scrape_success then
    { article with
      summary := some "", topic := some "Others", subcategory := some "Others"
      product_line := some "None", is_relevant := some false
      sentiment := some cfg.sentimentNeutral, polarity_score := some 0 }
  else
    let brandInfo := brands.find? (fun b => b.name == article.brand)
    let categories := match brandInfo with | some b => b.categories | none => []
    let subcategories := match brandInfo with | some b => b.subcategories | none => []
    let productLines := match brandInfo with | some b => b.product_lines | none => []
    match generate_summary cfg env article.content with
    | .error _ =>
      let sp := analyze_sentiment_textblob cfg env article.content
      { article with
        summary := some "", topic := some "Others", subcategory := some "Others"
        product_line := some "None", is_relevant := some false
        sentiment := some sp.1, polarity_score := some sp.2 }
    | .ok summ =>
      match brandInfo with
      | some _ =>
        let sp := analyze_sentiment cfg env article.content article.brand
        { article with
          summary := some summ
          topic := some (classify_topic env article.content categories)
          subcategory := some (classify_subcategory env article.content subcategories)
          product_line := some (identify_product_line env article.content productLines)
          is_relevant := some (check_relevancy env article.content article.brand)
          sentiment := some sp.1, polarity_score := some sp.2
          analysis_timestamp := some now }
      | none =>
        let sp := analyze_sentiment_textblob cfg env article.content
        { article with
          summary := some summ, topic := some "Others", subcategory := some "Others"
          product_line := some "None", is_relevant := some false
          sentiment := some sp.1, polarity_score := some sp.2
          analysis_timestamp := some now }

/-- `ContentAnalyzer.analyze_multiple_articles`.  In this model
`analyze_article` is total (it catches every exception its body can
raise), so the per-item `except` arm of the Python loop — the only place
that writes `analysis_error` — is unreachable. -/
def analyze_multiple_articles (cfg : AnalysisConfig) (env : AnalyzerEnv)
    (brands : List BrandInfo) (now : Nat) (articles : List Article) :
    List Article :=
  articles.map (analyze_article cfg env brands now)

/-!  ## PipelineOrchestrator (`agents/agent_orchestrator.py`)  -/

/-- The per-article mark applied by `_scrape_articles` when a whole
chunk's extraction raised: `article['content'] = ""`,
`article['scrape_success'] = False`. -/
def markFailed (a : Article) : Article :=
  { a with content := "", scrape_success := false }

/-- `ContentScraper.scrape_multiple_articles`: sequentially scrape each
article (the randomized inter-request delay has no effect on the data). -/
def scrape_multiple_articles (scrape : Article → Article)
    (articles : List Article) : List Article :=
  articles.map scrape

/-- The chunking `[articles[i:i + chunk_size] for i in range(0, len(articles), chunk_size)]`
for chunk size `m + 1`.  The `fuel` argument is a structural-recursion
bound; every call site passes `fuel ≥ length`, and each step consumes at
least one element, so the exhaustion arm is never reached there. -/
def chunksOfAux (m : Nat) : Nat → List Article → List (List Article)
  | _, [] => []
  | 0, l => [l]
  | fuel + 1, a :: l =>
    (a :: l).take (m + 1) :: chunksOfAux m fuel ((a :: l).drop (m + 1))

/-- The chunk list built by `_scrape_articles` with
`chunk_size = max(1, len(articles) // max_workers)`. -/
def articleChunks (maxWorkers : Nat) (articles : List Article) :
    List (List Article) :=
  chunksOfAux (max 1 (articles.length / maxWorkers) - 1) articles.length articles

/-- Collection of chunk results in completion order: `order` lists chunk
indices in the order `concurrent.futures.as_completed` yields them,
`chunkFails i` tells whether chunk `i`'s future raised (in which case its
articles are appended marked failed). -/
def collectChunks (scrape : Article → Article) (chunkFails : Nat → Bool)
    (chunks : List (List Article)) (order : List Nat) : List Article :=
  order.flatMap (fun i =>
    if chunkFails i then (chunks.getD i []).map markFailed
    else scrape_multiple_articles scrape (chunks.getD i []))

/-- `AgentOrchestrator._scrape_articles`: serial for at most five
articles, otherwise fan out over chunks and merge in completion order. -/
def scrape_articles_stage (maxWorkers : Nat) (scrape : Article → Article)
    (chunkFails : Nat → Bool) (order : List Nat)
    (articles : List Article) : List Article :=
  if articles.length ≤ 5 then scrape_multiple_articles scrape articles
  else collectChunks scrape chunkFails (articleChunks maxWorkers articles) order

/-- `AgentOrchestrator._analyze_articles`: split on `scrape_success`,
analyze the successful articles, and give the failed ones the literal
"dummy analysis" of lines 205–209 (`summary`, `topics`, `sentiment =
"neutral"`, `polarity_score`) before concatenating. -/
def analyze_articles_stage (cfg : AnalysisConfig) (env : AnalyzerEnv)
    (brands : List BrandInfo) (now : Nat) (articles : List Article) :
    List Article :=
  let successful := articles.filter (fun a => a.scrape_success)
  let failed := articles.filter (fun a => !a.scrape_success)
  let analyzed := analyze_multiple_articles cfg env brands now successful
  let failedDummy := failed.map (fun a =>
    { a with
      summary := some ""
      topics := some []
      sentiment := some "neutral"
      polarity_score := some 0 })
  analyzed ++ failedDummy

/-!  ## ContentExtractor cleaning (`agents/content_scraper.py`)  -/

/-- Replace every maximal run of characters satisfying `p` by the single
character `rep` (the effect of `re.sub(p_run, rep, ·)`); `inRun` records
whether the previous character was part of a run. -/
def collapseRunsAux (p : Char → Bool) (rep : Char) (inRun : Bool) :
    List Char → List Char
  | [] => []
  | c :: rest =>
    if p c then
      if inRun then collapseRunsAux p rep true rest
      else rep :: collapseRunsAux p rep true rest
    else c :: collapseRunsAux p rep false rest

/-- Strip of a character list (both ends), as in Python `str.strip()`. -/
def trimChars (l : List Char) : List Char :=
  ((l.dropWhile isPySpace).reverse.dropWhile isPySpace).reverse

/-- Index of the last newline of `l`, if any. -/
def lastNewlineIdx (l : List Char) : Option Nat :=
  match l.reverse.findIdx? (fun c => c == '\n') with
  | some j => some (l.length - 1 - j)
  | none => none

/-- Greedy match of the regex `\n\s*\n` at the head of the input: a
newline, then the longest whitespace run that still ends in a newline.
Returns the remaining input after the match. -/
def matchBlankSep : List Char → Option (List Char)
  | '\n' :: rest =>
    let run := rest.takeWhile isPySpace
    match lastNewlineIdx run with
    | some k => some (rest.drop (k + 1))
    | none => none
  | _ => none

/-- Leftmost-scan split on `\n\s*\n` (the behaviour of
`re.split(r'\n\s*\n', ·)`).  `fuel` bounds the recursion structurally;
each match consumes at least two characters, so `fuel = length` is always
sufficient at the call site. -/
def splitBlankAux : Nat → List Char → List Char → List (List Char)
  | _, acc, [] => [acc.reverse]
  | 0, acc, l => [acc.reverse ++ l]
  | fuel + 1, acc, c :: rest =>
    match matchBlankSep (c :: rest) with
    | some rem => acc.reverse :: splitBlankAux fuel [] rem
    | none => splitBlankAux fuel (c :: acc) rest

/-- `re.split(r'\n\s*\n', s)` on a character list. -/
def splitBlank (l : List Char) : List (List Char) :=
  splitBlankAux l.length [] l

/-- `ContentScraper._clean_content`, step for step:
`re.sub(r'\n+', '\n', ·)`, then `re.sub(r'\s+', ' ', ·)`, then
`.strip()`, then `re.split(r'\n\s*\n', ·)`, strip the pieces, drop the
empty ones and re-join with a blank line. -/
def clean_content (content : String) : String :=
  let clean := collapseRunsAux (fun c => c == '\n') '\n' false content.data
  let clean := collapseRunsAux isPySpace ' ' false clean
  let clean := trimChars clean
  let paragraphs := splitBlank clean
  let cleanParagraphs := (paragraphs.map trimChars).filter (fun p => !p.isEmpty)
  ⟨List.intercalate ['\n', '\n'] cleanParagraphs⟩

/-!  ## Persistence (`utils/database.py`)  -/

/-- Numeric value of a digit character. -/
def digitVal (c : Char) : Nat :=
  c.toNat - '0'.toNat

/-- Days of a month in the Gregorian calendar (used by `datetime` to
validate a parsed date). -/
def daysInMonth (y m : Nat) : Nat :=
  if m = 2 then (if (y % 4 = 0 ∧ ¬ y % 100 = 0) ∨ y % 400 = 0 then 29 else 28)
  else if m = 4 ∨ m = 6 ∨ m = 9 ∨ m = 11 then 30 else 31

/-- `datetime.strptime(·, "%Y%m%d_%H%M%S")` on the fixed-width strings
produced by `strftime`, encoded as the number
`y·10^10 + mo·10^8 + d·10^6 + h·10^4 + mi·10^2 + s` so that the encoding
is monotone in chronological order; `none` models a `ValueError`. -/
def parseCompactTimestamp (s : String) : Option Nat :=
  match s.data with
  | [y1, y2, y3, y4, m1, m2, d1, d2, u, h1, h2, n1, n2, c1, c2] =>
    if u = '_' ∧ ([y1, y2, y3, y4, m1, m2, d1, d2, h1, h2, n1, n2, c1, c2].all Char.isDigit) then
      let y := ((digitVal y1 * 10 + digitVal y2) * 10 + digitVal y3) * 10 + digitVal y4
      let mo := digitVal m1 * 10 + digitVal m2
      let d := digitVal d1 * 10 + digitVal d2
      let h := digitVal h1 * 10 + digitVal h2
      let mi := digitVal n1 * 10 + digitVal n2
      let sec := digitVal c1 * 10 + digitVal c2
      if 1 ≤ mo ∧ mo ≤ 12 ∧ 1 ≤ d ∧ d ≤ daysInMonth y mo ∧ h < 24 ∧ mi < 60 ∧ sec < 60 then
        some (y * 10 ^ 10 + mo * 10 ^ 8 + d * 10 ^ 6 + h * 10 ^ 4 + mi * 100 + sec)
      else none
    else none
  | _ => none

/-- The per-file condition of `DataManager.archive_old_data`: name shape
`news_analysis_*.csv`, parseable timestamp, and `file_date < cutoff`.
`cutoff` stands for `datetime.now() - timedelta(days=days)` under the
same encoding as `parseCompactTimestamp`. -/
def shouldArchive (cutoff : Nat) (file : String) : Bool :=
  if !(file.startsWith "news_analysis_") || !(file.endsWith ".csv") then false
  else
    match parseCompactTimestamp ((file.replace "news_analysis_" "").replace ".csv" "") with
    | some t => decide (t < cutoff)
    | none => false

/-- The processed and archive directories of `DataManager`, as the lists
of file names `os.listdir` would return. -/
structure DirState where
  processed : List String
  archive : List String
deriving DecidableEq, Repr

/-- `DataManager.archive_old_data`: every processed file matching
`shouldArchive` is moved (`shutil.move`) into the archive directory. -/
def archive_old_data (cutoff : Nat) (st : DirState) : DirState :=
  { processed := st.processed.filter (fun f => !shouldArchive cutoff f)
    archive := st.archive ++ st.processed.filter (fun f => shouldArchive cutoff f) }

/-!  ## Date parsing (`agents/news_fetcher.py::_parse_date`)  -/

/-- A `datetime.datetime` value: calendar fields plus an optional
UTC-offset (in minutes) for timezone-aware values. -/
structure PyDateTime where
  year : Nat := 1900
  month : Nat := 1
  day : Nat := 1
  hour : Nat := 0
  minute : Nat := 0
  second : Nat := 0
  microsecond : Nat := 0
  tzOffsetMinutes : Option Int := none
deriving DecidableEq, Repr

/-- Left-pad a number with zeros to the given width. -/
def padNum (width n : Nat) : String :=
  let s := toString n
  ⟨List.replicate (width - s.length) '0'⟩ ++ s

/-- `datetime.isoformat()`: `YYYY-MM-DDTHH:MM:SS[.ffffff][±HH:MM]`. -/
def isoformat (dt : PyDateTime) : String :=
  padNum 4 dt.year ++ "-" ++ padNum 2 dt.month ++ "-" ++ padNum 2 dt.day ++ "T" ++
  padNum 2 dt.hour ++ ":" ++ padNum 2 dt.minute ++ ":" ++ padNum 2 dt.second ++
  (if dt.microsecond = 0 then "" else "." ++ padNum 6 dt.microsecond) ++
  (match dt.tzOffsetMinutes with
   | none => ""
   | some off =>
     (if off < 0 then "-" else "+") ++
     padNum 2 (off.natAbs / 60) ++ ":" ++ padNum 2 (off.natAbs % 60))

/-- Read exactly `n` digit characters as a number. -/
def readDigits (n : Nat) (l : List Char) : Option (Nat × List Char) :=
  let ds := l.take n
  if ds.length = n ∧ ds.all Char.isDigit then
    some (ds.foldl (fun acc c => acc * 10 + digitVal c) 0, l.drop n)
  else none

/-- Expect a specific character at the head of the input. -/
def expectChar (c : Char) : List Char → Option (List Char)
  | d :: rest => if d == c then some rest else none
  | [] => none

/-- Read a case-insensitive three-letter abbreviation out of a fixed
vocabulary; returns its one-based index. -/
def readAbbrev (abbrevs : List String) (l : List Char) : Option (Nat × List Char) :=
  let w : String := ⟨l.take 3⟩
  match abbrevs.findIdx? (fun a => pyLower a == pyLower w) with
  | some i => some (i + 1, l.drop 3)
  | none => none

/-- Weekday abbreviations accepted by `%a` in the C locale. -/
def weekdayAbbrevs : List String :=
  ["Mon", "Tue", "Wed", "Thu", "Fri", "Sat", "Sun"]

/-- Month abbreviations accepted by `%b` in the C locale. -/
def monthAbbrevs : List String :=
  ["Jan", "Feb", "Mar", "Apr", "May", "Jun",
   "Jul", "Aug", "Sep", "Oct", "Nov", "Dec"]

/-- Parse the date part `%a, %d %b %Y ` of the RFC 2822 format:
weekday abbreviation, comma, two-digit day, month abbreviation and
four-digit year; returns `(year, month, day, rest)`. -/
def parseRFCDate (l : List Char) : Option (Nat × Nat × Nat × List Char) := do
  let (_, l) ← readAbbrev weekdayAbbrevs l
  let l ← expectChar ',' l
  let l ← expectChar ' ' l
  let (d, l) ← readDigits 2 l
  let l ← expectChar ' ' l
  let (mo, l) ← readAbbrev monthAbbrevs l
  let l ← expectChar ' ' l
  let (y, l) ← readDigits 4 l
  some (y, mo, d, l)

/-- Parse a clock time `HH:MM:SS`; returns
`(hour, minute, second, rest)`. -/
def parseClock (l : List Char) : Option (Nat × Nat × Nat × List Char) := do
  let (h, l) ← expectChar ' ' l >>= readDigits 2
  let (mi, l) ← expectChar ':' l >>= readDigits 2
  let (sec, l) ← expectChar ':' l >>= readDigits 2
  some (h, mi, sec, l)

/-- Parse a `%z` offset `±HHMM`; returns the offset in minutes. -/
def parseOffset4 (l : List Char) : Option (Int × List Char) := do
  let (sign, l) ←
    match l with
    | '+' :: rest => some ((1 : Int), rest)
    | '-' :: rest => some ((-1 : Int), rest)
    | _ => (none : Option (Int × List Char))
  let (oh, l) ← readDigits 2 l
  let (om, l) ← readDigits 2 l
  if oh < 24 ∧ om < 60 then some (sign * (oh * 60 + om), l) else none

/-- `datetime.strptime(·, "%a, %d %b %Y %H:%M:%S %z")` on the fixed-width
RFC 2822 form (e.g. `Mon, 01 Jan 2024 12:00:00 +0000`); `none` models the
`ValueError` the code catches. -/
def parseRFC2822 (s : String) : Option PyDateTime := do
  let (y, mo, d, l) ← parseRFCDate s.data
  let (h, mi, sec, l) ← parseClock l
  let (off, l) ← expectChar ' ' l >>= parseOffset4
  if l = [] ∧ 1 ≤ d ∧ d ≤ daysInMonth y mo ∧ h < 24 ∧ mi < 60 ∧ sec < 60 then
    some { year := y, month := mo, day := d, hour := h, minute := mi, second := sec,
           tzOffsetMinutes := some off }
  else none

/-- Parse a calendar date `YYYY-MM-DD` (validated); returns
`(year, month, day, rest)`. -/
def parseIsoDate (l : List Char) : Option (Nat × Nat × Nat × List Char) := do
  let (y, l) ← readDigits 4 l
  let (mo, l) ← expectChar '-' l >>= readDigits 2
  let (d, l) ← expectChar '-' l >>= readDigits 2
  if 1 ≤ mo ∧ mo ≤ 12 ∧ 1 ≤ d ∧ d ≤ daysInMonth y mo then some (y, mo, d, l)
  else none

/-- Parse the optional `[:SS[.ffffff]]` tail of an ISO time; returns
`(second, microsecond, rest)`. -/
def parseIsoSeconds : List Char → Option (Nat × Nat × List Char)
  | ':' :: l => do
    let (sec, l) ← readDigits 2 l
    match l with
    | '.' :: l2 => do
      let (micro, l3) ← readDigits 6 l2
      some (sec, micro, l3)
    | _ => some (sec, 0, l)
  | l => some (0, 0, l)

/-- Parse the optional `±HH:MM` offset tail of an ISO timestamp. -/
def parseIsoOffset : List Char → Option (Option Int × List Char)
  | '+' :: l => do
    let (oh, l) ← readDigits 2 l
    let (om, l) ← expectChar ':' l >>= readDigits 2
    if oh < 24 ∧ om < 60 then some (some ((oh * 60 + om : Nat) : Int), l) else none
  | '-' :: l => do
    let (oh, l) ← readDigits 2 l
    let (om, l) ← expectChar ':' l >>= readDigits 2
    if oh < 24 ∧ om < 60 then some (some (-((oh * 60 + om : Nat) : Int)), l) else none
  | l => some (none, l)

/-- `datetime.fromisoformat`:
`YYYY-MM-DD[<sep>HH:MM[:SS[.ffffff]]][±HH:MM]` (the subset produced by
`isoformat`, which is what the method accepted before Python 3.11);
`none` models a `ValueError`. -/
def parseIsoDateTime (s : String) : Option PyDateTime := do
  let (y, mo, d, l) ← parseIsoDate s.data
  match l with
  | [] => some { year := y, month := mo, day := d }
  | _ :: l => do
    let (h, l) ← readDigits 2 l
    let (mi, l) ← expectChar ':' l >>= readDigits 2
    let (sec, micro, l) ← parseIsoSeconds l
    let (tz, l) ← parseIsoOffset l
    if l = [] ∧ h < 24 ∧ mi < 60 ∧ sec < 60 then
      some { year := y, month := mo, day := d, hour := h, minute := mi,
             second := sec, microsecond := micro, tzOffsetMinutes := tz }
    else none

/-- `NewsFetcher._parse_date`: empty input and both parse failures fall
back to `datetime.now().isoformat()` (`now` is passed explicitly).  The
`try/except ValueError` ladder of the code is modelled by the `Option`
results: `ValueError` is the only exception either parse can raise on a
string input, and both arms are caught. -/
def parse_date (now : PyDateTime) (dateStr : String) : String :=
  if dateStr == "" then isoformat now
  else
    match parseRFC2822 dateStr with
    | some dt => isoformat dt
    | none =>
      match parseIsoDateTime (dateStr.replace "Z" "+00:00") with
      | some dt => isoformat dt
      | none => isoformat now

/-!  ## Concrete fixtures used by the closed theorems below  -/

/-- An environment whose backend and tokenizer raise on every call and
whose lexical polarity is identically zero. -/
def envDown : AnalyzerEnv :=
  ⟨fun _ => .error "backend down", fun _ => .error "tokenizer down", fun _ => 0⟩

/-- A fetched article whose scrape failed (no content). -/
def failedArticle : Article :=
  { title := "t", url := "u", brand := "b" }

/-- A scraped article with content, fed to the analyzer fixtures. -/
def scrapedArticle : Article :=
  { title := "t", url := "u", brand := "b",
    content := "Sales grew 10%. Profit rose.", scrape_success := true }

/-- Two raw hits with distinct (title, url) pairs whose joined dedup keys
coincide because the first title contains the separator bar. -/
def rawPipeTitle : RawArticle := { title := "a|b", url := "c" }

/-- See `rawPipeTitle`. -/
def rawPipeUrl : RawArticle := { title := "a", url := "b|c" }

/-- A fetch configuration with a single enabled default source and a cap
of one article. -/
def cfgOneSource : FetchConfig :=
  { maxArticles := 1, defaultSearchEngine := "S", sources := [{ name := "S" }] }

/-- An oracle returning one article for every query. -/
def oracleOne : String → String → List RawArticle :=
  fun _ _ => [{ title := "t", url := "u" }]

/-- A brand with two keywords. -/
def brandTwoKw : FetchBrand := { name := "B", keywords := ["k1", "k2"] }

/-- Canonical in-submission-order processing of the chunk list: chunk
`k` of the remaining list corresponds to absolute index `k` shifted into
`fails`.  This is the order-independent reference value the merged result
of `_scrape_articles` is compared against. -/
def processChunks (scrape : Article → Article) :
    (Nat → Bool) → List (List Article) → List Article
  | _, [] => []
  | fails, c :: cs =>
    (if fails 0 then c.map markFailed else c.map scrape) ++
      processChunks scrape (fun i => fails (i + 1)) cs

/-- Six articles, enough to trigger the parallel branch of
`_scrape_articles`. -/
def w8Articles : List Article :=
  [{ title := "a1" }, { title := "a2" }, { title := "a3" },
   { title := "a4" }, { title := "a5" }, { title := "a6" }]

/-- A per-article scrape used by the worker-pool witness. -/
def w8Scrape : Article → Article :=
  fun a => { a with content := "ok", scrape_success := true }

/-- Chunk two's future raises; all others succeed. -/
def w8Fails : Nat → Bool := fun i => i == 2

/-!  ## C4: result cap  -/

/-- Claim C4: for every brand and configuration, the list returned by
`fetch_news_for_brand` has length at most `max_articles_per_brand`. -/
theorem fetch_news_for_brand_cap (cfg : FetchConfig)
    (oracle : String → String → List RawArticle) (brand : FetchBrand) :
    (fetch_news_for_brand cfg oracle brand).1.length ≤ cfg.maxArticles := by
  unfold fetch_news_for_brand
  simp only [List.length_take]
  exact min_le_left _ _

/-!  ## C9: archive idempotence  -/

/-- Claim C9: `archive_old_data` is idempotent — a second run on the
state produced by a first run (same cutoff, no new snapshots in between)
moves nothing: the directory state is unchanged. -/
theorem archive_old_data_idempotent (cutoff : Nat) (st : DirState) :
    archive_old_data cutoff (archive_old_data cutoff st) =
      archive_old_data cutoff st := by
  unfold archive_old_data
  simp [List.filter_filter]

/-!  ## C10: date parsing totality  -/

/-- Claim C10: `_parse_date` is total — on every input string it returns
the `isoformat` rendering of some datetime; the empty string and any
string rejected by both parse attempts yield the current time. -/
theorem parse_date_total (now : PyDateTime) (s : String) :
    (∃ dt, parse_date now s = isoformat dt) ∧
    (s = "" → parse_date now s = isoformat now) ∧
    (parseRFC2822 s = none → parseIsoDateTime (s.replace "Z" "+00:00") = none →
      parse_date now s = isoformat now) := by
  refine ⟨?_, ?_, ?_⟩
  · unfold parse_date
    split
    · exact ⟨now, rfl⟩
    · rcases h1 : parseRFC2822 s with _ | dt
      · rcases h2 : parseIsoDateTime (s.replace "Z" "+00:00") with _ | dt2
        · exact ⟨now, by simp [h1, h2]⟩
        · exact ⟨dt2, by simp [h1, h2]⟩
      · exact ⟨dt, by simp [h1]⟩
  · intro h
    subst h
    simp [parse_date]
  · intro h1 h2
    unfold parse_date
    split
    · rfl
    · simp [h1, h2]

/-- Witness for `parse_date_total` at a concrete datetime and inputs. -/
theorem parse_date_total_witness :
    parse_date {} "" = isoformat {} :=
  (parse_date_total {} "").2.1 rfl

/-!  ## C7: content cleaning  -/

/-- Claim C7 (failing input): on the two-paragraph input
`"A\n\nB"` the cleaning step returns the single line `"A B"` — the
`re.sub(r'\s+', ' ', ·)` pass erases every newline, so the subsequent
paragraph split/re-join never separates paragraphs with a blank line as
the claim states. -/
theorem clean_content_flattens_paragraphs :
    clean_content "A\n\nB" = "A B" ∧ clean_content "A\n\nB" ≠ "A\n\nB" := by
  constructor
  · decide
  · decide

/-!  ## C1: classification schema of failed articles  -/

/-- Claim C1 (failing input): a pipeline article with
`scrape_success = false` bypasses the analyzer in `_analyze_articles` and
comes out without `topic`, `subcategory`, `product_line` and
`is_relevant` (they stay absent), with the stray list field `topics` and
the lowercase sentiment string `"neutral"` instead of the documented
defaults. -/
theorem analyze_articles_stage_drops_schema :
    ((analyze_articles_stage {} envDown [] 0 [failedArticle]).map Article.topic
        = [none]) ∧
    ((analyze_articles_stage {} envDown [] 0 [failedArticle]).map Article.subcategory
        = [none]) ∧
    ((analyze_articles_stage {} envDown [] 0 [failedArticle]).map Article.product_line
        = [none]) ∧
    ((analyze_articles_stage {} envDown [] 0 [failedArticle]).map Article.is_relevant
        = [none]) ∧
    ((analyze_articles_stage {} envDown [] 0 [failedArticle]).map Article.sentiment
        = [some "neutral"]) ∧
    ((analyze_articles_stage {} envDown [] 0 [failedArticle]).map Article.topics
        = [some []]) := by
  refine ⟨?_, ?_, ?_, ?_, ?_, ?_⟩ <;> decide

/-!  ## C6: the analyzer guard path  -/

/-- Claim C6: an article with empty content or a failed scrape gets all
classification defaults (`summary`, `topic`, `subcategory`,
`product_line`, `is_relevant`, `sentiment`, `polarity_score`) and the
result does not depend on the backend environment — no external call is
made. -/
theorem analyze_article_guard_defaults (cfg : AnalysisConfig)
    (env : AnalyzerEnv) (brands : List BrandInfo) (now : Nat) (a : Article)
    (h : a.content = "" ∨ a.scrape_success = false)
    (hcfg : cfg.sentimentNeutral = "Neutral") :
    (analyze_article cfg env brands now a).summary = some "" ∧
    (analyze_article cfg env brands now a).topic = some "Others" ∧
    (analyze_article cfg env brands now a).subcategory = some "Others" ∧
    (analyze_article cfg env brands now a).product_line = some "None" ∧
    (analyze_article cfg env brands now a).is_relevant = some false ∧
    (analyze_article cfg env brands now a).sentiment = some "Neutral" ∧
    (analyze_article cfg env brands now a).polarity_score = some 0 ∧
    (∀ env2 : AnalyzerEnv, analyze_article cfg env2 brands now a =
      analyze_article cfg env brands now a) := by
  have hb : (a.content == "" || !a.scrape_success) = true := by
    rcases h with h | h
    · simp [h]
    · simp [h]
  simp [analyze_article, hb, hcfg]

/-- Witness for `analyze_article_guard_defaults` on a concrete failed
article. -/
theorem analyze_article_guard_defaults_witness :
    (analyze_article {} envDown [] 0 failedArticle).topic = some "Others" :=
  (analyze_article_guard_defaults {} envDown [] 0 failedArticle
    (Or.inr rfl) rfl).2.1

/-!  ## C5: top-level analyzer failure  -/

/-- Claim C5 (counterexample): when the only exception that can escape
the per-field calls (a summary-fallback tokenizer error) is raised, the
returned article has `analysis_error` still absent — the exception text
is not recorded, contrary to the claim. -/
theorem analyze_article_error_not_recorded :
    (analyze_article {} envDown [] 0 scrapedArticle).analysis_error = none ∧
    (analyze_article {} envDown [] 0 scrapedArticle).topic = some "Others" ∧
    (analyze_article {} envDown [] 0 scrapedArticle).summary = some "" := by
  refine ⟨?_, ?_, ?_⟩ <;> decide

/-- Claim C5 (amended): if an exception escapes the per-field calls of
`analyze_article` (i.e. `_generate_summary` fails), the article gets the
default classification values plus a TextBlob-only sentiment pass on the
full content, while `analysis_error` and `analysis_timestamp` are left
untouched — no error text is recorded on this path. -/
theorem analyze_article_toplevel_fallback (cfg : AnalysisConfig)
    (env : AnalyzerEnv) (brands : List BrandInfo) (now : Nat) (a : Article)
    (e : String) (hc : ¬ a.content = "") (hs : a.scrape_success = true)
    (hsum : generate_summary cfg env a.content = .error e) :
    (analyze_article cfg env brands now a).summary = some "" ∧
    (analyze_article cfg env brands now a).topic = some "Others" ∧
    (analyze_article cfg env brands now a).subcategory = some "Others" ∧
    (analyze_article cfg env brands now a).product_line = some "None" ∧
    (analyze_article cfg env brands now a).is_relevant = some false ∧
    (analyze_article cfg env brands now a).sentiment =
      some (analyze_sentiment_textblob cfg env a.content).1 ∧
    (analyze_article cfg env brands now a).polarity_score =
      some (analyze_sentiment_textblob cfg env a.content).2 ∧
    (analyze_article cfg env brands now a).analysis_error = a.analysis_error ∧
    (analyze_article cfg env brands now a).analysis_timestamp =
      a.analysis_timestamp := by
  have hb : (a.content == "" || !a.scrape_success) = false := by
    simp [hs, hc]
  simp [analyze_article, hb, hsum]

/-- Witness for `analyze_article_toplevel_fallback` on a concrete article
and failing environment. -/
theorem analyze_article_toplevel_fallback_witness :
    (analyze_article {} envDown [] 0 scrapedArticle).product_line =
      some "None" :=
  (analyze_article_toplevel_fallback {} envDown [] 0 scrapedArticle
    "tokenizer down" (by decide) rfl rfl).2.2.2.1

/-!  ## C3: deduplication  -/

/-- The output of the dedup loop is a sublist of its input: order is
preserved and no occurrence is duplicated. -/
theorem dedupGo_sublist (l : List RawArticle) :
    ∀ seen, (dedupGo seen l).Sublist l := by
  induction l with
  | nil => intro seen; simp [dedupGo]
  | cons a rest ih =>
    intro seen
    by_cases h1 : dedupValid a = true
    · by_cases h2 : seen.contains (dedupKey a) = true
      · simp only [dedupGo, if_neg (by simp [h1] : ¬ (!dedupValid a) = true), if_pos h2]
        exact (ih seen).cons a
      · simp only [dedupGo, if_neg (by simp [h1] : ¬ (!dedupValid a) = true), if_neg h2]
        exact (ih _).cons₂ a
    · simp only [dedupGo, if_pos (by simp [h1] : (!dedupValid a) = true)]
      exact (ih seen).cons a

/-- Every article emitted by the dedup loop passed the validity guard. -/
theorem dedupGo_valid (l : List RawArticle) :
    ∀ seen, ∀ b ∈ dedupGo seen l, dedupValid b = true := by
  induction l with
  | nil => intro seen b hb; simp [dedupGo] at hb
  | cons a rest ih =>
    intro seen b hb
    by_cases h1 : dedupValid a = true
    · by_cases h2 : seen.contains (dedupKey a) = true
      · simp only [dedupGo, if_neg (by simp [h1] : ¬ (!dedupValid a) = true),
          if_pos h2] at hb
        exact ih seen b hb
      · simp only [dedupGo, if_neg (by simp [h1] : ¬ (!dedupValid a) = true),
          if_neg h2] at hb
        rcases List.mem_cons.1 hb with h | h
        · subst h; exact h1
        · exact ih _ b h
    · simp only [dedupGo, if_pos (by simp [h1] : (!dedupValid a) = true)] at hb
      exact ih seen b hb

/-- The emitted articles have pairwise distinct keys, and no emitted key
was already in `seen`. -/
theorem dedupGo_pairwise (l : List RawArticle) :
    ∀ seen, (dedupGo seen l).Pairwise (fun x y => dedupKey x ≠ dedupKey y) ∧
      ∀ b ∈ dedupGo seen l, ¬ dedupKey b ∈ seen := by
  induction l with
  | nil =>
    intro seen
    refine ⟨by simp [dedupGo], ?_⟩
    intro b hb; simp [dedupGo] at hb
  | cons a rest ih =>
    intro seen
    by_cases h1 : dedupValid a = true
    · by_cases h2 : seen.contains (dedupKey a) = true
      · simp only [dedupGo, if_neg (by simp [h1] : ¬ (!dedupValid a) = true),
          if_pos h2]
        exact ih seen
      · simp only [dedupGo, if_neg (by simp [h1] : ¬ (!dedupValid a) = true),
          if_neg h2]
        have ih2 := ih (dedupKey a :: seen)
        constructor
        · refine List.Pairwise.cons ?_ ih2.1
          intro b hb hEq
          exact (ih2.2 b hb) (by rw [← hEq]; exact List.mem_cons_self _ _)
        · intro b hb
          rcases List.mem_cons.1 hb with h | h
          · subst h
            intro hm
            exact h2 (by simpa using hm)
          · intro hm
            exact (ih2.2 b h) (List.mem_cons_of_mem _ hm)
    · simp only [dedupGo, if_pos (by simp [h1] : (!dedupValid a) = true)]
      exact ih seen

/-- Every valid input article has a representative of its key in the
output (or its key was already in `seen`). -/
theorem dedupGo_complete (l : List RawArticle) :
    ∀ seen, ∀ a ∈ l, dedupValid a = true →
      dedupKey a ∈ seen ∨ ∃ b ∈ dedupGo seen l, dedupKey b = dedupKey a := by
  induction l with
  | nil => intro seen a ha; simp at ha
  | cons x rest ih =>
    intro seen a ha hv
    by_cases h1 : dedupValid x = true
    · by_cases h2 : seen.contains (dedupKey x) = true
      · simp only [dedupGo, if_neg (by simp [h1] : ¬ (!dedupValid x) = true),
          if_pos h2]
        rcases List.mem_cons.1 ha with h | h
        · subst h; left; exact (by simpa using h2)
        · exact ih seen a h hv
      · simp only [dedupGo, if_neg (by simp [h1] : ¬ (!dedupValid x) = true),
          if_neg h2]
        rcases List.mem_cons.1 ha with h | h
        · subst h
          right
          exact ⟨a, List.mem_cons_self _ _, rfl⟩
        · rcases ih (dedupKey x :: seen) a h hv with hIn | ⟨b, hb, hkey⟩
          · rcases List.mem_cons.1 hIn with hEq | hseen
            · right
              exact ⟨x, List.mem_cons_self _ _, hEq.symm⟩
            · left; exact hseen
          · right; exact ⟨b, List.mem_cons_of_mem _ hb, hkey⟩
    · simp only [dedupGo, if_pos (by simp [h1] : (!dedupValid x) = true)]
      rcases List.mem_cons.1 ha with h | h
      · subst h; exact absurd hv h1
      · exact ih seen a h hv

/-- The first valid occurrence of a key not yet seen is emitted. -/
theorem dedupGo_first (l1 : List RawArticle) :
    ∀ seen (a : RawArticle) (l2 : List RawArticle), dedupValid a = true →
      ¬ dedupKey a ∈ seen →
      (∀ b ∈ l1, dedupValid b = true → dedupKey b ≠ dedupKey a) →
      a ∈ dedupGo seen (l1 ++ a :: l2) := by
  induction l1 with
  | nil =>
    intro seen a l2 hv hns _
    simp only [List.nil_append, dedupGo,
      if_neg (by simp [hv] : ¬ (!dedupValid a) = true),
      if_neg (by simpa using hns : ¬ seen.contains (dedupKey a) = true)]
    exact List.mem_cons_self _ _
  | cons x l1 ih =>
    intro seen a l2 hv hns hfirst
    simp only [List.cons_append]
    by_cases h1 : dedupValid x = true
    · by_cases h2 : seen.contains (dedupKey x) = true
      · simp only [dedupGo, if_neg (by simp [h1] : ¬ (!dedupValid x) = true),
          if_pos h2]
        exact ih seen a l2 hv hns
          (fun b hb => hfirst b (List.mem_cons_of_mem _ hb))
      · simp only [dedupGo, if_neg (by simp [h1] : ¬ (!dedupValid x) = true),
          if_neg h2]
        refine List.mem_cons_of_mem _ ?_
        refine ih (dedupKey x :: seen) a l2 hv ?_
          (fun b hb => hfirst b (List.mem_cons_of_mem _ hb))
        intro hm
        rcases List.mem_cons.1 hm with hEq | hseen
        · exact hfirst x (List.mem_cons_self _ _) h1 hEq.symm
        · exact hns hseen
    · simp only [dedupGo, if_pos (by simp [h1] : (!dedupValid x) = true)]
      exact ih seen a l2 hv hns
        (fun b hb => hfirst b (List.mem_cons_of_mem _ hb))

/-- The dedup loop computes exactly the spec-side "first valid
occurrence of each joined key wins" filter: `seen` holds precisely the
keys of the valid articles in the scanned prefix `prev`. -/
theorem dedupGo_eq_spec (l : List RawArticle) :
    ∀ (seen : List String) (prev : List RawArticle),
      (∀ k, k ∈ seen ↔ ∃ b ∈ prev, dedupValid b = true ∧ dedupKey b = k) →
      dedupGo seen l = dedupSpecAux prev l := by
  induction l with
  | nil => intro seen prev _; rfl
  | cons a rest ih =>
    intro seen prev hinv
    by_cases h1 : dedupValid a = true
    · by_cases h2 : dedupKey a ∈ seen
      · have hc : seen.contains (dedupKey a) = true := by simpa using h2
        have hany : prev.any
            (fun b => dedupValid b && dedupKey b == dedupKey a) = true := by
          rcases (hinv (dedupKey a)).1 h2 with ⟨b, hb, hbv, hbk⟩
          exact List.any_eq_true.2 ⟨b, hb, by simp [hbv, hbk]⟩
        simp only [dedupGo, dedupSpecAux]
        rw [if_neg (by simp [h1] : ¬ (!dedupValid a) = true), if_pos hc,
          if_neg (by simp [hany] : ¬ (dedupValid a &&
            !(prev.any (fun b => dedupValid b && dedupKey b == dedupKey a)))
              = true)]
        refine ih seen (prev ++ [a]) ?_
        intro k
        constructor
        · intro hk
          rcases (hinv k).1 hk with ⟨b, hb, hbv, hbk⟩
          exact ⟨b, List.mem_append_left _ hb, hbv, hbk⟩
        · rintro ⟨b, hb, hbv, hbk⟩
          rcases List.mem_append.1 hb with h | h
          · exact (hinv k).2 ⟨b, h, hbv, hbk⟩
          · rw [List.mem_singleton.1 h] at hbk
            subst hbk
            exact h2
      · have hc : ¬ seen.contains (dedupKey a) = true := by simpa using h2
        have hany : prev.any
            (fun b => dedupValid b && dedupKey b == dedupKey a) = false := by
          rw [List.any_eq_false]
          intro b hb hPb
          simp only [Bool.and_eq_true, beq_iff_eq] at hPb
          exact h2 ((hinv (dedupKey a)).2 ⟨b, hb, hPb.1, hPb.2⟩)
        simp only [dedupGo, dedupSpecAux]
        rw [if_neg (by simp [h1] : ¬ (!dedupValid a) = true), if_neg hc,
          if_pos (by simp [h1, hany] : (dedupValid a &&
            !(prev.any (fun b => dedupValid b && dedupKey b == dedupKey a)))
              = true)]
        congr 1
        refine ih (dedupKey a :: seen) (prev ++ [a]) ?_
        intro k
        constructor
        · intro hk
          rcases List.mem_cons.1 hk with h | h
          · exact ⟨a, List.mem_append_right _ (List.mem_singleton.2 rfl),
              h1, h.symm⟩
          · rcases (hinv k).1 h with ⟨b, hb, hbv, hbk⟩
            exact ⟨b, List.mem_append_left _ hb, hbv, hbk⟩
        · rintro ⟨b, hb, hbv, hbk⟩
          rcases List.mem_append.1 hb with h | h
          · exact List.mem_cons_of_mem _ ((hinv k).2 ⟨b, h, hbv, hbk⟩)
          · rw [List.mem_singleton.1 h] at hbk
            subst hbk
            exact List.mem_cons_self _ _
    · simp only [dedupGo, dedupSpecAux]
      rw [if_pos (by simp [h1] : (!dedupValid a) = true),
        if_neg (by simp [h1] : ¬ (dedupValid a &&
          !(prev.any (fun b => dedupValid b && dedupKey b == dedupKey a)))
            = true)]
      refine ih seen (prev ++ [a]) ?_
      intro k
      constructor
      · intro hk
        rcases (hinv k).1 hk with ⟨b, hb, hbv, hbk⟩
        exact ⟨b, List.mem_append_left _ hb, hbv, hbk⟩
      · rintro ⟨b, hb, hbv, hbk⟩
        rcases List.mem_append.1 hb with h | h
        · exact (hinv k).2 ⟨b, h, hbv, hbk⟩
        · exfalso
          rw [List.mem_singleton.1 h] at hbv
          exact h1 hbv

/-- Claim C3 (amended): deduplication keeps exactly one record per
distinct joined key `strip+lower(title) ++ "|" ++ strip+lower(url)` — not
per distinct (title, url) pair, since two distinct pairs can share their
joined key when a title contains a bar.  The first occurrence of each key
wins, relative order is preserved, and articles with an empty trimmed
title or url are discarded.  The final conjunct characterises the output
completely: it equals the spec-side filter keeping exactly the valid
articles with no earlier valid same-key occurrence. -/
theorem deduplicate_articles_spec (l : List RawArticle) :
    (deduplicate_articles l).Sublist l ∧
    (deduplicate_articles l).Pairwise (fun x y => dedupKey x ≠ dedupKey y) ∧
    (∀ b ∈ deduplicate_articles l, dedupValid b = true) ∧
    (∀ a ∈ l, dedupValid a = true →
      ∃ b ∈ deduplicate_articles l, dedupKey b = dedupKey a) ∧
    (∀ l1 a l2, l = l1 ++ a :: l2 → dedupValid a = true →
      (∀ b ∈ l1, dedupValid b = true → dedupKey b ≠ dedupKey a) →
      a ∈ deduplicate_articles l) ∧
    deduplicate_articles l = dedupSpecAux [] l := by
  refine ⟨dedupGo_sublist l [], (dedupGo_pairwise l []).1, dedupGo_valid l [],
    ?_, ?_, ?_⟩
  · intro a ha hv
    rcases dedupGo_complete l [] a ha hv with h | h
    · simp at h
    · exact h
  · intro l1 a l2 hsplit hv hfirst
    subst hsplit
    exact dedupGo_first l1 [] a l2 hv (by simp) hfirst
  · exact dedupGo_eq_spec l [] [] (by simp)

/-- Witness for `deduplicate_articles_spec` on a concrete one-element
input. -/
theorem deduplicate_articles_spec_witness :
    ∃ b ∈ deduplicate_articles [rawPipeTitle],
      dedupKey b = dedupKey rawPipeTitle :=
  (deduplicate_articles_spec [rawPipeTitle]).2.2.2.1 rawPipeTitle
    (by decide) (by decide)

/-- Claim C3 (counterexample): two raw hits with distinct
(trimmed, lowered) (title, url) pairs — `("a|b", "c")` and
`("a", "b|c")` — collapse to a single output record because their joined
keys coincide, refuting "exactly one record per distinct pair". -/
theorem deduplicate_articles_pipe_collision :
    deduplicate_articles [rawPipeTitle, rawPipeUrl] = [rawPipeTitle] ∧
    dedupValid rawPipeUrl = true ∧
    ¬ (dedupTitle rawPipeTitle = dedupTitle rawPipeUrl ∧
       dedupUrl rawPipeTitle = dedupUrl rawPipeUrl) := by
  refine ⟨?_, ?_, ?_⟩ <;> decide

/-!  ## C2: source priority and the article cap  -/

/-- In the alternative-source loop, every query is issued from a state
whose accumulated count is below the cap, provided the loop is entered
below the cap (which `fetch_news_for_brand` guarantees). -/
theorem fetchOtherSources_pre (cfg : FetchConfig)
    (oracle : String → String → List RawArticle) (kw : String) :
    ∀ (sources : List SourceSpec) (acc : List RawArticle)
      (log : List SourceQuery),
      (∀ e ∈ log, e.src ≠ cfg.defaultSearchEngine → e.pre < cfg.maxArticles) →
      acc.length < cfg.maxArticles →
      ∀ e ∈ (fetchOtherSources cfg oracle kw sources acc log).2,
        e.src ≠ cfg.defaultSearchEngine → e.pre < cfg.maxArticles := by
  intro sources
  induction sources with
  | nil =>
    intro acc log hlog hacc e he
    simp only [fetchOtherSources] at he
    exact hlog e he
  | cons s rest ih =>
    intro acc log hlog hacc e he
    simp only [fetchOtherSources] at he
    by_cases hskip : (s.name == cfg.defaultSearchEngine || !s.enabled) = true
    · rw [if_pos hskip] at he
      exact ih acc log hlog hacc e he
    · rw [if_neg hskip] at he
      by_cases hcap : cfg.maxArticles ≤ (acc ++ oracle s.name kw).length
      · rw [if_pos hcap] at he
        rcases List.mem_append.1 he with h | h
        · exact hlog e h
        · rw [List.mem_singleton.1 h]
          intro _
          exact hacc
      · rw [if_neg hcap] at he
        refine ih (acc ++ oracle s.name kw) (log ++ [⟨s.name, kw, acc.length⟩])
          ?_ (by omega) e he
        intro e2 he2 hsrc
        rcases List.mem_append.1 he2 with h | h
        · exact hlog e2 h hsrc
        · rw [List.mem_singleton.1 h]
          exact hacc

/-- The alternative-source loop issues no query to the default engine:
the filtered view of the log on the default name is unchanged. -/
theorem fetchOtherSources_defaultCount (cfg : FetchConfig)
    (oracle : String → String → List RawArticle) (kw : String) :
    ∀ (sources : List SourceSpec) (acc : List RawArticle)
      (log : List SourceQuery),
      ((fetchOtherSources cfg oracle kw sources acc log).2.filter
        (fun e => e.src == cfg.defaultSearchEngine)) =
      log.filter (fun e => e.src == cfg.defaultSearchEngine) := by
  intro sources
  induction sources with
  | nil => intro acc log; simp [fetchOtherSources]
  | cons s rest ih =>
    intro acc log
    simp only [fetchOtherSources]
    by_cases hskip : (s.name == cfg.defaultSearchEngine || !s.enabled) = true
    · rw [if_pos hskip]
      exact ih acc log
    · rw [if_neg hskip]
      have hname : (s.name == cfg.defaultSearchEngine) = false := by
        have h0 : (s.name == cfg.defaultSearchEngine || !s.enabled) = false :=
          Bool.eq_false_iff.2 hskip
        exact (Bool.or_eq_false_iff.1 h0).1
      by_cases hcap : cfg.maxArticles ≤ (acc ++ oracle s.name kw).length
      · rw [if_pos hcap]
        simp [List.filter_append, hname]
      · rw [if_neg hcap]
        rw [ih]
        simp [List.filter_append, hname]

/-- Per-keyword version of the query-cap property: the keyword pass
preserves it for the whole log. -/
theorem fetchKeyword_pre (cfg : FetchConfig)
    (oracle : String → String → List RawArticle) (kw : String)
    (acc : List RawArticle) (log : List SourceQuery)
    (hlog : ∀ e ∈ log, e.src ≠ cfg.defaultSearchEngine →
      e.pre < cfg.maxArticles) :
    ∀ e ∈ (fetchKeyword cfg oracle kw acc log).2,
      e.src ≠ cfg.defaultSearchEngine → e.pre < cfg.maxArticles := by
  intro e he
  rcases hfind : cfg.sources.find?
      (fun s => s.name == cfg.defaultSearchEngine && s.enabled) with _ | ds
  · simp only [fetchKeyword, hfind] at he
    by_cases hlt : acc.length < cfg.maxArticles
    · rw [if_pos hlt] at he
      exact fetchOtherSources_pre cfg oracle kw cfg.sources acc log hlog hlt e he
    · rw [if_neg hlt] at he
      exact hlog e he
  · have hds : ds.name = cfg.defaultSearchEngine := by
      have h := List.find?_some hfind
      simp only [Bool.and_eq_true, beq_iff_eq] at h
      exact h.1
    simp only [fetchKeyword, hfind] at he
    have hlog1 : ∀ e2 ∈ log ++ [⟨ds.name, kw, acc.length⟩],
        e2.src ≠ cfg.defaultSearchEngine → e2.pre < cfg.maxArticles := by
      intro e2 he2 hsrc
      rcases List.mem_append.1 he2 with h | h
      · exact hlog e2 h hsrc
      · exfalso
        apply hsrc
        rw [List.mem_singleton.1 h]
        exact hds
    by_cases hlt : (acc ++ oracle ds.name kw).length < cfg.maxArticles
    · rw [if_pos hlt] at he
      exact fetchOtherSources_pre cfg oracle kw cfg.sources _ _ hlog1 hlt e he
    · rw [if_neg hlt] at he
      exact hlog1 e he

/-- Per-keyword count of default-engine queries: exactly one when an
enabled default source exists, none otherwise — independently of how many
articles have accumulated. -/
theorem fetchKeyword_defaultCount (cfg : FetchConfig)
    (oracle : String → String → List RawArticle) (kw : String)
    (acc : List RawArticle) (log : List SourceQuery) :
    ((fetchKeyword cfg oracle kw acc log).2.filter
      (fun e => e.src == cfg.defaultSearchEngine)).length =
    (log.filter (fun e => e.src == cfg.defaultSearchEngine)).length +
      (if (cfg.sources.find?
            (fun s => s.name == cfg.defaultSearchEngine && s.enabled)).isSome
       then 1 else 0) := by
  rcases hfind : cfg.sources.find?
      (fun s => s.name == cfg.defaultSearchEngine && s.enabled) with _ | ds
  · simp only [fetchKeyword, hfind, Option.isSome_none, Bool.false_eq_true,
      if_false, Nat.add_zero]
    by_cases hlt : acc.length < cfg.maxArticles
    · rw [if_pos hlt, fetchOtherSources_defaultCount]
    · rw [if_neg hlt]
  · have hds : (ds.name == cfg.defaultSearchEngine) = true := by
      have h := List.find?_some hfind
      simp only [Bool.and_eq_true] at h
      exact h.1
    simp only [fetchKeyword, hfind, Option.isSome_some, if_true]
    by_cases hlt : (acc ++ oracle ds.name kw).length < cfg.maxArticles
    · rw [if_pos hlt, fetchOtherSources_defaultCount]
      simp [List.filter_append, hds]
    · rw [if_neg hlt]
      simp [List.filter_append, hds]

/-- The keyword fold preserves the query-cap property of the log. -/
theorem fetchFold_pre (cfg : FetchConfig)
    (oracle : String → String → List RawArticle) :
    ∀ (kws : List String) (st : List RawArticle × List SourceQuery),
      (∀ e ∈ st.2, e.src ≠ cfg.defaultSearchEngine →
        e.pre < cfg.maxArticles) →
      ∀ e ∈ (kws.foldl
          (fun st kw => fetchKeyword cfg oracle kw st.1 st.2) st).2,
        e.src ≠ cfg.defaultSearchEngine → e.pre < cfg.maxArticles := by
  intro kws
  induction kws with
  | nil => intro st hst e he; exact hst e he
  | cons kw rest ih =>
    intro st hst e he
    simp only [List.foldl_cons] at he
    exact ih (fetchKeyword cfg oracle kw st.1 st.2)
      (fetchKeyword_pre cfg oracle kw st.1 st.2 hst) e he

/-- The keyword fold issues exactly one default-engine query per keyword
when an enabled default source exists. -/
theorem fetchFold_defaultCount (cfg : FetchConfig)
    (oracle : String → String → List RawArticle)
    (hsome : (cfg.sources.find?
      (fun s => s.name == cfg.defaultSearchEngine && s.enabled)).isSome) :
    ∀ (kws : List String) (st : List RawArticle × List SourceQuery),
      ((kws.foldl (fun st kw => fetchKeyword cfg oracle kw st.1 st.2) st).2.filter
        (fun e => e.src == cfg.defaultSearchEngine)).length =
      (st.2.filter (fun e => e.src == cfg.defaultSearchEngine)).length +
        kws.length := by
  intro kws
  induction kws with
  | nil => intro st; simp
  | cons kw rest ih =>
    intro st
    simp only [List.foldl_cons]
    rw [ih, fetchKeyword_defaultCount]
    simp only [hsome, if_true, List.length_cons]
    omega

/-- The alternative-source loop only ever appends to the log: running it
on any log equals running it on the empty log and prefixing. -/
theorem fetchOtherSources_log_append (cfg : FetchConfig)
    (oracle : String → String → List RawArticle) (kw : String) :
    ∀ (sources : List SourceSpec) (acc : List RawArticle)
      (log : List SourceQuery),
      fetchOtherSources cfg oracle kw sources acc log =
        ((fetchOtherSources cfg oracle kw sources acc []).1,
         log ++ (fetchOtherSources cfg oracle kw sources acc []).2) := by
  intro sources
  induction sources with
  | nil => intro acc log; simp [fetchOtherSources]
  | cons s rest ih =>
    intro acc log
    by_cases hskip : (s.name == cfg.defaultSearchEngine || !s.enabled) = true
    · simp only [fetchOtherSources, if_pos hskip]
      exact ih acc log
    · by_cases hcap : cfg.maxArticles ≤ (acc ++ oracle s.name kw).length
      · simp only [fetchOtherSources, if_neg hskip, if_pos hcap,
          List.nil_append]
      · simp only [fetchOtherSources, if_neg hskip, if_neg hcap,
          List.nil_append]
        have h1 := ih (acc ++ oracle s.name kw)
          (log ++ [{ src := s.name, kw := kw, pre := acc.length }])
        have h2 := ih (acc ++ oracle s.name kw)
          [{ src := s.name, kw := kw, pre := acc.length }]
        rw [h1, h2]
        simp [List.append_assoc]

/-- Every entry the alternative-source loop appends names a non-default
source and carries the keyword of the pass. -/
theorem fetchOtherSources_entries (cfg : FetchConfig)
    (oracle : String → String → List RawArticle) (kw : String) :
    ∀ (sources : List SourceSpec) (acc : List RawArticle)
      (log : List SourceQuery),
      ∀ e ∈ (fetchOtherSources cfg oracle kw sources acc log).2,
        e ∈ log ∨ (e.src ≠ cfg.defaultSearchEngine ∧ e.kw = kw) := by
  intro sources
  induction sources with
  | nil =>
    intro acc log e he
    simp only [fetchOtherSources] at he
    exact Or.inl he
  | cons s rest ih =>
    intro acc log e he
    by_cases hskip : (s.name == cfg.defaultSearchEngine || !s.enabled) = true
    · simp only [fetchOtherSources, if_pos hskip] at he
      exact ih acc log e he
    · have hname : (s.name == cfg.defaultSearchEngine) = false := by
        have h0 : (s.name == cfg.defaultSearchEngine || !s.enabled) = false :=
          Bool.eq_false_iff.2 hskip
        exact (Bool.or_eq_false_iff.1 h0).1
      have hne : s.name ≠ cfg.defaultSearchEngine := by
        simpa using hname
      simp only [fetchOtherSources, if_neg hskip] at he
      by_cases hcap : cfg.maxArticles ≤ (acc ++ oracle s.name kw).length
      · rw [if_pos hcap] at he
        rcases List.mem_append.1 he with h | h
        · exact Or.inl h
        · rw [List.mem_singleton.1 h]
          exact Or.inr ⟨hne, rfl⟩
      · rw [if_neg hcap] at he
        rcases ih (acc ++ oracle s.name kw) (log ++ [⟨s.name, kw, acc.length⟩])
            e he with h | h
        · rcases List.mem_append.1 h with h2 | h2
          · exact Or.inl h2
          · rw [List.mem_singleton.1 h2]
            exact Or.inr ⟨hne, rfl⟩
        · exact Or.inr h

/-- One keyword pass, split into its spec-side components: the resulting
accumulator is `fetchKeywordArticles` and the log grows by exactly the
default-engine query followed by the non-default queries. -/
theorem fetchKeyword_eq (cfg : FetchConfig)
    (oracle : String → String → List RawArticle) (kw : String)
    (acc : List RawArticle) (log : List SourceQuery) :
    fetchKeyword cfg oracle kw acc log =
      (fetchKeywordArticles cfg oracle kw acc,
       log ++ (defaultQuerySpec cfg kw acc ++
         otherQueriesSpec cfg oracle kw acc)) := by
  rcases hfind : cfg.sources.find?
      (fun s => s.name == cfg.defaultSearchEngine && s.enabled) with _ | ds
  · simp only [fetchKeyword, defaultQuerySpec, otherQueriesSpec,
      fetchKeywordArticles, accAfterDefault, hfind]
    by_cases hlt : acc.length < cfg.maxArticles
    · simp only [if_pos hlt]
      rw [fetchOtherSources_log_append cfg oracle kw cfg.sources acc log]
      simp
    · simp only [if_neg hlt]
      simp
  · simp only [fetchKeyword, defaultQuerySpec, otherQueriesSpec,
      fetchKeywordArticles, accAfterDefault, hfind]
    by_cases hlt : (acc ++ oracle ds.name kw).length < cfg.maxArticles
    · simp only [if_pos hlt]
      have h1 := fetchOtherSources_log_append cfg oracle kw cfg.sources
        (acc ++ oracle ds.name kw)
        (log ++ [{ src := ds.name, kw := kw, pre := acc.length }])
      rw [h1]
      simp [List.append_assoc]
    · simp only [if_neg hlt]
      simp

/-- The keyword fold realises exactly the spec-side article state and
log layout. -/
theorem fetchFold_eq (cfg : FetchConfig)
    (oracle : String → String → List RawArticle) :
    ∀ (kws : List String) (acc : List RawArticle) (log : List SourceQuery),
      kws.foldl (fun st kw => fetchKeyword cfg oracle kw st.1 st.2)
          (acc, log) =
        (fetchArticlesSpec cfg oracle kws acc,
         log ++ fetchLogSpec cfg oracle kws acc) := by
  intro kws
  induction kws with
  | nil => intro acc log; simp [fetchArticlesSpec, fetchLogSpec]
  | cons kw kws ih =>
    intro acc log
    simp only [List.foldl_cons]
    rw [fetchKeyword_eq, ih]
    simp [fetchArticlesSpec, fetchLogSpec, List.append_assoc]

/-- Entries of the spec-side default query name the default engine and
carry the pass keyword. -/
theorem defaultQuerySpec_entries (cfg : FetchConfig) (kw : String)
    (acc : List RawArticle) :
    ∀ e ∈ defaultQuerySpec cfg kw acc,
      e.src = cfg.defaultSearchEngine ∧ e.kw = kw := by
  intro e he
  rcases hfind : cfg.sources.find?
      (fun s => s.name == cfg.defaultSearchEngine && s.enabled) with _ | ds
  · simp [defaultQuerySpec, hfind] at he
  · simp only [defaultQuerySpec, hfind, List.mem_singleton] at he
    subst he
    refine ⟨?_, rfl⟩
    have h := List.find?_some hfind
    simp only [Bool.and_eq_true, beq_iff_eq] at h
    exact h.1

/-- Entries of the spec-side non-default pass name a source other than
the default engine and carry the pass keyword. -/
theorem otherQueriesSpec_entries (cfg : FetchConfig)
    (oracle : String → String → List RawArticle) (kw : String)
    (acc : List RawArticle) :
    ∀ e ∈ otherQueriesSpec cfg oracle kw acc,
      e.src ≠ cfg.defaultSearchEngine ∧ e.kw = kw := by
  intro e he
  simp only [otherQueriesSpec] at he
  by_cases hlt : (accAfterDefault cfg oracle kw acc).length < cfg.maxArticles
  · rw [if_pos hlt] at he
    rcases fetchOtherSources_entries cfg oracle kw cfg.sources _ [] e he with h | h
    · simp at h
    · exact h
  · rw [if_neg hlt] at he
    simp at he

/-- Claim C2 (amended): sources are tried in priority order — for each
keyword the configured default engine is queried first, then the
remaining enabled sources — but the cap check only guards the
non-default pass: a non-default source query is issued only from an
accumulated count below `max_articles_per_brand`, while the default
engine is queried exactly once per keyword even after the cap is
reached.  The third conjunct exhibits the priority order: the query log
is laid out keyword by keyword, the default-engine query of a keyword
(characterised by the fourth conjunct) preceding its non-default
queries (characterised by the fifth). -/
theorem fetch_news_for_brand_queries (cfg : FetchConfig)
    (oracle : String → String → List RawArticle) (brand : FetchBrand) :
    (∀ e ∈ (fetch_news_for_brand cfg oracle brand).2,
      e.src ≠ cfg.defaultSearchEngine → e.pre < cfg.maxArticles) ∧
    ((cfg.sources.find?
        (fun s => s.name == cfg.defaultSearchEngine && s.enabled)).isSome →
      ((fetch_news_for_brand cfg oracle brand).2.filter
        (fun e => e.src == cfg.defaultSearchEngine)).length =
        brand.keywords.length) ∧
    ((fetch_news_for_brand cfg oracle brand).2 =
      fetchLogSpec cfg oracle brand.keywords []) ∧
    (∀ (kw : String) (acc : List RawArticle),
      ∀ e ∈ defaultQuerySpec cfg kw acc,
        e.src = cfg.defaultSearchEngine ∧ e.kw = kw) ∧
    (∀ (kw : String) (acc : List RawArticle),
      ∀ e ∈ otherQueriesSpec cfg oracle kw acc,
        e.src ≠ cfg.defaultSearchEngine ∧ e.kw = kw) := by
  refine ⟨?_, ?_, ?_, ?_, ?_⟩
  · intro e he
    exact fetchFold_pre cfg oracle brand.keywords ([], []) (by simp) e he
  · intro hsome
    have h := fetchFold_defaultCount cfg oracle hsome brand.keywords ([], [])
    simpa using h
  · show (brand.keywords.foldl
        (fun st kw => fetchKeyword cfg oracle kw st.1 st.2) ([], [])).2 =
      fetchLogSpec cfg oracle brand.keywords []
    rw [fetchFold_eq cfg oracle brand.keywords [] []]
    simp
  · intro kw acc
    exact defaultQuerySpec_entries cfg kw acc
  · intro kw acc
    exact otherQueriesSpec_entries cfg oracle kw acc

/-- Witness for `fetch_news_for_brand_queries` on a concrete
configuration. -/
theorem fetch_news_for_brand_queries_witness :
    ((fetch_news_for_brand cfgOneSource oracleOne brandTwoKw).2.filter
      (fun e => e.src == cfgOneSource.defaultSearchEngine)).length =
      brandTwoKw.keywords.length :=
  (fetch_news_for_brand_queries cfgOneSource oracleOne brandTwoKw).2.1
    (by decide)

/-- Claim C2 (counterexample): with a cap of one article, one enabled
default source and two keywords, a second source query is issued although
the accumulated count already reached the cap — refuting "no additional
source query once the count is at or above the cap". -/
theorem fetch_news_query_after_cap :
    ∃ e ∈ (fetch_news_for_brand cfgOneSource oracleOne brandTwoKw).2,
      cfgOneSource.maxArticles ≤ e.pre := by decide

/-!  ## C8: worker-pool fan-out totals  -/

/-- The chunking is a partition: flattening the chunks restores the
input list, for every fuel. -/
theorem chunksOfAux_flatten (m : Nat) :
    ∀ (fuel : Nat) (l : List Article), (chunksOfAux m fuel l).flatten = l := by
  intro fuel
  induction fuel with
  | zero => intro l; cases l <;> simp [chunksOfAux]
  | succ fuel ih =>
    intro l
    cases l with
    | nil => simp [chunksOfAux]
    | cons a rest =>
      simp only [chunksOfAux, List.flatten_cons]
      rw [ih]
      exact List.take_append_drop _ _

/-- Chunk-wise processing preserves the total article count. -/
theorem processChunks_length (scrape : Article → Article) :
    ∀ (cs : List (List Article)) (fails : Nat → Bool),
      (processChunks scrape fails cs).length = cs.flatten.length := by
  intro cs
  induction cs with
  | nil => intro fails; simp [processChunks]
  | cons c cs ih =>
    intro fails
    simp only [processChunks, List.length_append, List.flatten_cons]
    rw [ih]
    congr 1
    by_cases h : fails 0 = true <;> simp [h]

/-- Collecting the chunks in submission order is the canonical chunk
processing. -/
theorem collectChunks_range (scrape : Article → Article) :
    ∀ (cs : List (List Article)) (fails : Nat → Bool),
      collectChunks scrape fails cs (List.range cs.length) =
        processChunks scrape fails cs := by
  intro cs
  induction cs with
  | nil => intro fails; rfl
  | cons c cs ih =>
    intro fails
    show (List.range (cs.length + 1)).flatMap
        (fun i => if fails i
          then ((c :: cs).getD i []).map markFailed
          else scrape_multiple_articles scrape ((c :: cs).getD i []))
      = processChunks scrape fails (c :: cs)
    simp only [List.range_succ_eq_map, List.flatMap_cons, List.flatMap_map]
    have htail :
        ((List.range cs.length).flatMap fun a =>
          if fails (Nat.succ a)
          then ((c :: cs).getD (Nat.succ a) []).map markFailed
          else scrape_multiple_articles scrape ((c :: cs).getD (Nat.succ a) []))
        = processChunks scrape (fun i => fails (i + 1)) cs := by
      rw [← ih (fun i => fails (i + 1))]
      exact List.flatMap_congr fun i _ => rfl
    rw [htail]
    rfl

/-- Claim C8: for every article list and worker count, the merged result
of `_scrape_articles` (in any completion order of the chunk futures)
contains exactly the input articles' processed versions — the length is
preserved, the multiset equals the canonical chunk processing, and every
article of a chunk whose future raised appears marked
`scrape_success = false`, `content = ""`. -/
theorem scrape_articles_stage_totals (maxW : Nat) (scrape : Article → Article)
    (fails : Nat → Bool) (order : List Nat) (articles : List Article)
    (hperm : order.Perm (List.range (articleChunks maxW articles).length)) :
    (scrape_articles_stage maxW scrape fails order articles).length =
      articles.length ∧
    (scrape_articles_stage maxW scrape fails order articles).Perm
      (if articles.length ≤ 5 then articles.map scrape
       else processChunks scrape fails (articleChunks maxW articles)) ∧
    (¬ articles.length ≤ 5 →
      ∀ i, i < (articleChunks maxW articles).length → fails i = true →
        ∀ a ∈ (articleChunks maxW articles).getD i [],
          markFailed a ∈ scrape_articles_stage maxW scrape fails order articles) := by
  by_cases h5 : articles.length ≤ 5
  · refine ⟨?_, ?_, ?_⟩
    · simp [scrape_articles_stage, h5, scrape_multiple_articles]
    · simp only [scrape_articles_stage, scrape_multiple_articles, if_pos h5]
      exact List.Perm.refl _
    · intro h; exact absurd h5 h
  · have hP : (scrape_articles_stage maxW scrape fails order articles).Perm
        (processChunks scrape fails (articleChunks maxW articles)) := by
      simp only [scrape_articles_stage, if_neg h5, collectChunks]
      have h1 := List.Perm.flatMap_right
        (fun i => if fails i
          then ((articleChunks maxW articles).getD i []).map markFailed
          else scrape_multiple_articles scrape
            ((articleChunks maxW articles).getD i [])) hperm
      refine h1.trans ?_
      rw [← collectChunks_range scrape (articleChunks maxW articles) fails]
      exact List.Perm.refl _
    refine ⟨?_, ?_, ?_⟩
    · rw [hP.length_eq, processChunks_length]
      simp [articleChunks, chunksOfAux_flatten]
    · simp only [if_neg h5]
      exact hP
    · intro _ i hi hfi a ha
      have hmem : i ∈ order := hperm.mem_iff.2 (List.mem_range.2 hi)
      have hstep : markFailed a ∈
          (if fails i
           then ((articleChunks maxW articles).getD i []).map markFailed
           else scrape_multiple_articles scrape
             ((articleChunks maxW articles).getD i [])) := by
        rw [hfi]
        simp only [if_true]
        exact List.mem_map_of_mem _ ha
      simp only [scrape_articles_stage, if_neg h5, collectChunks]
      exact List.mem_flatMap.2 ⟨i, hmem, hstep⟩

/-- Witness for `scrape_articles_stage_totals`: six articles, four
workers (six one-element chunks), chunk 2 failing, collected in the
completion order 5, 0, 1, 2, 3, 4. -/
theorem scrape_articles_stage_totals_witness :
    (scrape_articles_stage 4 w8Scrape w8Fails [5, 0, 1, 2, 3, 4]
      w8Articles).length = w8Articles.length :=
  (scrape_articles_stage_totals 4 w8Scrape w8Fails [5, 0, 1, 2, 3, 4]
    w8Articles (by decide)).1
